import Mathlib

/-!
Verification development for the clang-tidy runner/parser in
`shipit_static_analysis/clang.py`.

The embedding models, faithfully to the Python source:
* the header regular expression
  `^(.+):(\d+):(\d+): (warning|error|note): ([\w\s\.\'\"^_,-<=>\(\)]+)(?: \[([\.\w-]+)\])?\n`
  compiled with `re.MULTILINE`, including Python's backtracking semantics
  (greedy `.+` for the path, greedy digit runs, ordered alternation for the
  kind, greedy message run with backtracking against the optional bracketed
  check id and the final newline);
* `re.finditer` scanning (leftmost matches, non-overlapping, `^` anchored at
  the start of the text or just after a newline);
* Python slice semantics, including negative indices (`s[:start-1]`);
* `ClangTidy.parse_issues`: truncation at the `Enabled checks:` marker,
  per-header `ClangIssue` construction, body slicing, dropping of
  `clang-diagnostic-error` problems and attachment of notes to the last
  kept problem;
* `ClangIssue.__init__` (path prefix stripping, `int()` conversion of the
  line/column captures, modelled as an `Option` to capture that `int()`
  raises on non-digit input) and `ClangIssue.is_problem`;
* the file-name filter of `ClangTidy.run`
  (`re.compile('(' + ')|('.join(files) + ')')` plus `.search`), modelled for
  fragments built from literal characters and the `.` metacharacter, which is
  exactly the fragment language exercised by the theorems below.

Character classes are modelled over ASCII (`\w` is `[A-Za-z0-9_]`); the
Python `re` module additionally accepts non-ASCII word characters, which none
of the statements below depend on.
-/

namespace Clang

/-- Word character of the regex class `\w`, restricted to ASCII. -/
def isWordChar (c : Char) : Bool :=
  c.isAlphanum || decide (c = '_')

/-- Whitespace character of the regex class `\s` (ASCII). -/
def isSpaceChar (c : Char) : Bool :=
  decide (c = ' ') || decide (c = '\t') || decide (c = '\n') || decide (c = '\r') ||
  decide (c = '\x0b') || decide (c = '\x0c')

/-- Character class of the message group
`[\w\s\.\'\"^_,-<=>\(\)]`.  Note that `,-<` is a character range (codes 44
to 60, hence also `:`, `;`, `/` and the digits) and that `\s` puts the
newline in the class. -/
def isMessageChar (c : Char) : Bool :=
  isWordChar c || isSpaceChar c ||
  decide (c = '.') || decide (c = '\'') || decide (c = '"') ||
  decide (c = '^') || decide (c = '_') ||
  (decide (',' ≤ c) && decide (c ≤ '<')) ||
  decide (c = '=') || decide (c = '>') || decide (c = '(') || decide (c = ')')

/-- Character class of the check-id group `[\.\w-]`. -/
def isCheckChar (c : Char) : Bool :=
  decide (c = '.') || isWordChar c || decide (c = '-')

/-- Groups captured by one match of `REGEX_HEADER` (clang.py line 18). -/
structure HeaderGroups where
  path : List Char
  lineDigits : List Char
  colDigits : List Char
  kind : List Char
  message : List Char
  check : Option (List Char)
  deriving DecidableEq

/-- Result of matching everything after the path group:
line digits, column digits, kind, message, optional check id, and the
number of characters consumed (from the `:` after the path up to and
including the final newline). -/
structure AfterPath where
  lineDigits : List Char
  colDigits : List Char
  kind : List Char
  message : List Char
  check : Option (List Char)
  len : Nat
  deriving DecidableEq

/-- Match the bare `\n` that terminates a header. -/
def matchNl : List Char → Option (Option (List Char) × Nat)
  | '\n' :: _ => some (none, 1)
  | _ => none

/-- Match the regex tail `(?: \[([\.\w-]+)\])?\n`: first try the optional
group (a space, `[`, a nonempty greedy run of check characters, `]`),
then the newline; on failure fall back to the bare newline, exactly as the
backtracking engine does. -/
def matchOptCheckNl (l : List Char) : Option (Option (List Char) × Nat) :=
  match l with
  | ' ' :: '[' :: r =>
    match r.takeWhile isCheckChar, r.drop (r.takeWhile isCheckChar).length with
    | c :: cs, ']' :: '\n' :: _ => some (some (c :: cs), (c :: cs).length + 4)
    | _, _ => matchNl l
  | _ => matchNl l

/-- Backtracking over the end of the greedy message run: `msgRev` is the
reversed message candidate (initially the maximal run of message
characters), `rest` the remainder.  Python's engine tries the longest
message first and peels one character at a time back onto the remainder,
never letting the message become empty. -/
def tryMessageEnds : List Char → List Char → Option (List Char × Option (List Char) × Nat)
  | [], _ => none
  | m :: ms, rest =>
    match matchOptCheckNl rest with
    | some (chk, n) => some ((m :: ms).reverse, chk, n)
    | none => tryMessageEnds ms (m :: rest)

/-- Match `([\w\s\.\'\"^_,-<=>\(\)]+)(?: \[([\.\w-]+)\])?\n` at `l`,
returning the message, the optional check id, and the number of characters
consumed after the message. -/
def matchMessagePart (l : List Char) : Option (List Char × Option (List Char) × Nat) :=
  tryMessageEnds (l.takeWhile isMessageChar).reverse (l.drop (l.takeWhile isMessageChar).length)

/-- Ordered alternation `(warning|error|note)`. -/
def matchKind (l : List Char) : Option (List Char × List Char) :=
  if ("warning".data).isPrefixOf l then some ("warning".data, l.drop 7)
  else if ("error".data).isPrefixOf l then some ("error".data, l.drop 5)
  else if ("note".data).isPrefixOf l then some ("note".data, l.drop 4)
  else none

/-- Expect one literal character. -/
def expectChar (ch : Char) : List Char → Option (List Char)
  | [] => none
  | c :: cs => if c = ch then some cs else none

/-- Greedy `(\d+)`: the maximal digit run, which must be nonempty.  Since a
shorter digit run would be followed by a digit rather than by the literal
that follows in the pattern, the maximal run is the only candidate and no
backtracking is needed for the digit groups. -/
def takeDigits1 (l : List Char) : Option (List Char × List Char) :=
  match l.takeWhile Char.isDigit with
  | [] => none
  | d :: ds => some (d :: ds, l.drop (d :: ds).length)

/-- Match `:(\d+):(\d+): (warning|error|note): <message part>` at `l`. -/
def matchAfterPath (l : List Char) : Option AfterPath :=
  (expectChar ':' l).bind fun r1 =>
  (takeDigits1 r1).bind fun p1 =>
  (expectChar ':' p1.2).bind fun r2 =>
  (takeDigits1 r2).bind fun p2 =>
  (expectChar ':' p2.2).bind fun r3 =>
  (expectChar ' ' r3).bind fun r4 =>
  (matchKind r4).bind fun pk =>
  (expectChar ':' pk.2).bind fun r5 =>
  (expectChar ' ' r5).bind fun r6 =>
  (matchMessagePart r6).map fun m =>
    ⟨p1.1, p2.1, pk.1, m.1, m.2.1,
      1 + p1.1.length + 1 + p2.1.length + 2 + pk.1.length + 2 + m.1.length + m.2.2⟩

/-- Backtracking over the end of the greedy path group `(.+)`: `pathRev` is
the reversed path candidate (initially the maximal run of non-newline
characters); Python tries the longest path first. -/
def tryPathSplits : List Char → List Char → Option (HeaderGroups × Nat)
  | [], _ => none
  | p :: ps, rest =>
    match matchAfterPath rest with
    | some ap =>
      some (⟨(p :: ps).reverse, ap.lineDigits, ap.colDigits, ap.kind, ap.message, ap.check⟩,
        (p :: ps).length + ap.len)
    | none => tryPathSplits ps (p :: rest)

/-- Match `REGEX_HEADER` at the start of `t` (which the scanner only calls
at the start of a line, because of `^` with `re.MULTILINE`).  Returns the
captured groups and the total length of the match. -/
def matchHeaderAt (t : List Char) : Option (HeaderGroups × Nat) :=
  tryPathSplits (t.takeWhile (fun c => !decide (c = '\n'))).reverse
    (t.drop (t.takeWhile (fun c => !decide (c = '\n'))).length)

/-- One match produced by `re.finditer(REGEX_HEADER, text)`: the captured
groups together with `match.start()` and `match.end()`. -/
structure HeaderMatch where
  groups : HeaderGroups
  startPos : Nat
  endPos : Nat
  deriving DecidableEq

/-- Scanner implementing `re.finditer`: try the pattern at every position
that begins a line, emit non-overlapping matches in textual order and
resume scanning at the end of each match.  `fuel` bounds the recursion and
is initialised with the length of the text. -/
def scanHeadersAux : Nat → List Char → Nat → Bool → List HeaderMatch
  | 0, _, _, _ => []
  | _ + 1, [], _, _ => []
  | fuel + 1, c :: rest, pos, lineStart =>
    if lineStart then
      match matchHeaderAt (c :: rest) with
      | some (g, n) =>
        ⟨g, pos, pos + n⟩ :: scanHeadersAux fuel ((c :: rest).drop n) (pos + n) true
      | none => scanHeadersAux fuel rest (pos + 1) (decide (c = '\n'))
    else scanHeadersAux fuel rest (pos + 1) (decide (c = '\n'))

/-- All matches of `REGEX_HEADER` in `t`, in textual-position order.  The
`sorted(..., key=lambda h: h.start())` in `parse_issues` is the identity on
this list since `finditer` already yields matches by increasing start. -/
def scanHeaders (t : List Char) : List HeaderMatch :=
  scanHeadersAux t.length t 0 true

/-- Python index resolution for slices: a negative index counts from the
end of the sequence, and indices are clamped to the length. -/
def pyResolveIndex (len : Nat) (i : Int) : Nat :=
  if 0 ≤ i then min i.toNat len else len - min (-i).toNat len

/-- Python slice `l[a:b]`. -/
def pySlice (l : List Char) (a b : Int) : List Char :=
  (l.take (pyResolveIndex l.length b)).drop (pyResolveIndex l.length a)

/-- Python slice `l[:b]`. -/
def pySliceTo (l : List Char) (b : Int) : List Char :=
  l.take (pyResolveIndex l.length b)

/-- Position of the first match of `re.search(r'^Enabled checks:\n', text,
re.MULTILINE)`: the first line start where `Enabled checks:\n` is a prefix
of the remainder. -/
def findMarkerAux : Nat → List Char → Nat → Bool → Option Nat
  | 0, _, _, _ => none
  | _ + 1, [], _, _ => none
  | fuel + 1, c :: rest, pos, lineStart =>
    if lineStart && ("Enabled checks:\n".data).isPrefixOf (c :: rest) then some pos
    else findMarkerAux fuel rest (pos + 1) (decide (c = '\n'))

/-- Search for the `Enabled checks:` marker line (clang.py line 146). -/
def findMarker (t : List Char) : Option Nat :=
  findMarkerAux t.length t 0 true

/-- Truncation step of `parse_issues` (clang.py lines 146-148):
`clang_output[:end.start()-1]`, with Python's integer arithmetic and slice
semantics — in particular when the marker starts at offset 0 the slice is
`clang_output[:-1]`, which keeps everything but the last character. -/
def pyTruncate (t : List Char) : List Char :=
  match findMarker t with
  | none => t
  | some st => pySliceTo t ((st : Int) - 1)

/-- An issue reported by clang-tidy (class `ClangIssue`, clang.py
lines 183-202).  `line`/`char` are the `int()` conversions of the captured
digit runs; `check` is `none` when the bracketed suffix is absent
(Python `None`); `notes` is the list of attached note issues. -/
inductive ClangIssue where
  | mk (path : String) (line : Int) (char : Int) (type : String) (message : String)
      (check : Option String) (body : String) (notes : List ClangIssue)

def ClangIssue.path : ClangIssue → String
  | .mk v _ _ _ _ _ _ _ => v

def ClangIssue.line : ClangIssue → Int
  | .mk _ v _ _ _ _ _ _ => v

def ClangIssue.char : ClangIssue → Int
  | .mk _ _ v _ _ _ _ _ => v

def ClangIssue.type : ClangIssue → String
  | .mk _ _ _ v _ _ _ _ => v

def ClangIssue.message : ClangIssue → String
  | .mk _ _ _ _ v _ _ _ => v

def ClangIssue.check : ClangIssue → Option String
  | .mk _ _ _ _ _ v _ _ => v

def ClangIssue.body : ClangIssue → String
  | .mk _ _ _ _ _ _ v _ => v

def ClangIssue.notes : ClangIssue → List ClangIssue
  | .mk _ _ _ _ _ _ _ v => v

/-- Append a note to an issue (`issues[-1].notes.append(issue)`). -/
def ClangIssue.addNote : ClangIssue → ClangIssue → ClangIssue
  | .mk p l c t m ch b ns, n => .mk p l c t m ch b (ns ++ [n])

/-- Is the issue a problem (`ClangIssue.is_problem`, clang.py line 201):
its type is `warning` or `error`. -/
def ClangIssue.isProblem (i : ClangIssue) : Bool :=
  decide (i.type = "warning" ∨ i.type = "error")

/-- Python `int()` on a string, restricted to the sign-and-digits inputs
relevant here; `none` models the `ValueError` raised on anything else. -/
def digitsToNat (l : List Char) : Nat :=
  l.foldl (fun a c => a * 10 + (c.toNat - 48)) 0

def digitsVal (l : List Char) : Option Nat :=
  if l.isEmpty then none
  else if l.all Char.isDigit then some (digitsToNat l) else none

def pyInt (l : List Char) : Option Int :=
  match l with
  | [] => none
  | c :: cs =>
    if c = '-' then (digitsVal cs).map (fun n => -(n : Int))
    else if c = '+' then (digitsVal cs).map (fun n => (n : Int))
    else (digitsVal (c :: cs)).map (fun n => (n : Int))

/-- Path normalization of `ClangIssue.__init__` (clang.py lines 191-192):
strip the work directory when the path starts with it. -/
def stripWorkDir (wd p : List Char) : List Char :=
  if wd.isPrefixOf p then p.drop wd.length else p

/-- Construct a `ClangIssue` from the captured groups and the body text
(`ClangIssue.__init__`, clang.py lines 187-196).  Returns `none` when the
`int()` conversions would raise. -/
def ofHeader (wd : List Char) (g : HeaderGroups) (body : List Char) : Option ClangIssue :=
  match pyInt g.lineDigits, pyInt g.colDigits with
  | some li, some co =>
    some (ClangIssue.mk (String.mk (stripWorkDir wd g.path)) li co
      (String.mk g.kind) (String.mk g.message) (g.check.map String.mk) (String.mk body) [])
  | _, _ => none

/-- Body of the issue for header `h` given the following headers
(clang.py lines 160-165): the slice from the end of this match to one
character before the start of the next match, or to the end of the text
for the last match. -/
def bodySlice (t : List Char) (h : HeaderMatch) (rest : List HeaderMatch) : List Char :=
  match rest with
  | [] => t.drop h.endPos
  | h2 :: _ => pySlice t (h.endPos : Int) ((h2.startPos : Int) - 1)

/-- Build one `ClangIssue` per header, with its body (the per-header part
of the loop in `parse_issues`). -/
def buildIssues (wd t : List Char) : List HeaderMatch → Option (List ClangIssue)
  | [] => some []
  | h :: rest =>
    match ofHeader wd h.groups (bodySlice t h rest) with
    | some i =>
      match buildIssues wd t rest with
      | some is => some (i :: is)
      | none => none
    | none => none

/-- Attach a note to the last element of the issue list
(`issues[-1].notes.append(issue)`); on an empty list this is a no-op, as
with Python's `elif issues:` guard. -/
def attachNote : List ClangIssue → ClangIssue → List ClangIssue
  | [], _ => []
  | [i], n => [i.addNote n]
  | i :: j :: rest, n => i :: attachNote (j :: rest) n

/-- One step of the classification loop of `parse_issues` (clang.py
lines 167-178): keep problems unless their check id is the
`clang-diagnostic-error` sentinel, attach non-problems as notes to the
last kept problem. -/
def attachStep (issues : List ClangIssue) (issue : ClangIssue) : List ClangIssue :=
  if issue.isProblem then
    if issue.check = some "clang-diagnostic-error" then issues
    else issues ++ [issue]
  else attachNote issues issue

/-- The whole of `parse_issues` on an already-truncated text. -/
def parseAll (wd t : List Char) : Option (List ClangIssue) :=
  match buildIssues wd t (scanHeaders t) with
  | some is => some (is.foldl attachStep [])
  | none => none

/-- `ClangTidy.parse_issues` (clang.py lines 140-180), with the `int()`
conversions modelled as `Option`: `none` would correspond to a raised
`ValueError` (the totality theorem below shows this never happens). -/
def parseIssuesE (wd clang_output : String) : Option (List ClangIssue) :=
  parseAll wd.data (pyTruncate clang_output.data)

/-- Total version of `parse_issues`. -/
def parseIssues (wd clang_output : String) : List ClangIssue :=
  (parseIssuesE wd clang_output).getD []

/-- Kind of a header as a problem (`warning` or `error`). -/
def headerIsProblem (h : HeaderMatch) : Bool :=
  decide (h.groups.kind = "warning".data ∨ h.groups.kind = "error".data)

/-- Problem header whose check id is the `clang-diagnostic-error`
sentinel. -/
def headerIsDiagErr (h : HeaderMatch) : Bool :=
  headerIsProblem h && decide (h.groups.check = some ("clang-diagnostic-error".data))

/-- Python regex metacharacters (outside character classes). -/
def isRegexMeta (c : Char) : Bool :=
  decide (c = '.') || decide (c = '^') || decide (c = '$') || decide (c = '*') ||
  decide (c = '+') || decide (c = '?') || decide (c = '\x7b') || decide (c = '\x7d') ||
  decide (c = '[') || decide (c = ']') || decide (c = '\\') || decide (c = '|') ||
  decide (c = '(') || decide (c = ')')

/-- Match one fragment of the `run` file filter, viewed as a regex, at the
start of `t`.  This models Python's matching for fragments made of literal
characters and the `.` metacharacter (which matches any character except a
newline); fragments containing other metacharacters are outside the scope
of this model. -/
def reMatchFragAt : List Char → List Char → Bool
  | [], _ => true
  | _ :: _, [] => false
  | p :: ps, c :: cs =>
    (if p = '.' then decide (c ≠ '\n') else decide (p = c)) && reMatchFragAt ps cs

/-- `re.search` of one fragment: try every start position. -/
def reSearchFrag (f t : List Char) : Bool :=
  t.tails.any (reMatchFragAt f)

/-- The filter `re.compile('(' + ')|('.join(files) + ')').search(name)` of
`ClangTidy.run` (clang.py lines 76 and 91).  For an empty fragment list the
constructed pattern is `()`, which matches the empty string at position 0
of every subject, hence every name. -/
def fileNameMatches (files : List String) (name : String) : Bool :=
  files.isEmpty || files.any (fun f => reSearchFrag f.data name.data)

/-- The files of the compile database that `run` enqueues for the workers
(clang.py lines 90-92). -/
def filteredFiles (databaseFiles files : List String) : List String :=
  databaseFiles.filter (fun name => fileNameMatches files name)

/-- Substring containment, following the spec's words: "any compiled file
whose path contains one of the fragments as a substring qualifies".  This
is the comparator the corrected claim C7 is measured against, not a
translation of the source. -/
def isPrefixOfB : List Char → List Char → Bool
  | [], _ => true
  | _ :: _, [] => false
  | a :: as, b :: bs => decide (a = b) && isPrefixOfB as bs

def isSubstringOf (f name : String) : Bool :=
  name.data.tails.any (isPrefixOfB f.data)

/-- Well-formed digit capture: nonempty and all digits. -/
def DigitsWF (l : List Char) : Prop :=
  l ≠ [] ∧ l.all Char.isDigit = true

/-- The kind capture is one of the three alternatives. -/
def KindWF (k : List Char) : Prop :=
  k = "warning".data ∨ k = "error".data ∨ k = "note".data

/-- Well-formedness of the captured groups of a header match, guaranteed by
the grammar. -/
def GroupsWF (g : HeaderGroups) : Prop :=
  DigitsWF g.lineDigits ∧ DigitsWF g.colDigits ∧ KindWF g.kind

/-- Relation between a header match and the `ClangIssue` built from it. -/
def headerIssueRel (h : HeaderMatch) (i : ClangIssue) : Prop :=
  i.type = String.mk h.groups.kind ∧ i.check = h.groups.check.map String.mk ∧
  i.notes = [] ∧ 0 ≤ i.line ∧ 0 ≤ i.char ∧
  (i.type = "warning" ∨ i.type = "error" ∨ i.type = "note")

/-- Invariant of the issues accumulated by the classification fold. -/
def IssueOut (i : ClangIssue) : Prop :=
  i.isProblem = true ∧ 0 ≤ i.line ∧ 0 ≤ i.char ∧
  ∀ n ∈ i.notes, n.type = "note" ∧ 0 ≤ n.line ∧ 0 ≤ n.char

/-- Shape of the issues fed into the classification fold. -/
def IssueIn (i : ClangIssue) : Prop :=
  (i.type = "warning" ∨ i.type = "error" ∨ i.type = "note") ∧
  0 ≤ i.line ∧ 0 ≤ i.char ∧ i.notes = []

/-- A kept problem issue: sample value for witness statements. -/
def sampleProblem : ClangIssue :=
  .mk "a.cpp" 1 1 "warning" "m" none "b" []

/-- A problem issue carrying the `clang-diagnostic-error` sentinel. -/
def sampleDiagErr : ClangIssue :=
  .mk "a.cpp" 2 2 "error" "e" (some "clang-diagnostic-error") "b" []

/-- A note issue: sample value for witness statements. -/
def sampleNote : ClangIssue :=
  .mk "a.cpp" 3 3 "note" "n" none "b" []

theorem takeWhile_all (p : Char → Bool) : ∀ l : List Char, ((l.takeWhile p).all p) = true
  | [] => rfl
  | c :: cs => by
    by_cases h : p c
    · simp [List.takeWhile_cons, h, takeWhile_all p cs]
    · simp [List.takeWhile_cons, h]

theorem takeDigits1_spec {l d r : List Char}
    (h : takeDigits1 l = some (d, r)) : DigitsWF d := by
  cases hx : l.takeWhile Char.isDigit with
  | nil => simp [takeDigits1, hx] at h
  | cons c cs =>
    simp only [takeDigits1, hx, Option.some.injEq, Prod.mk.injEq] at h
    obtain ⟨hd, _⟩ := h
    subst hd
    refine ⟨by simp, ?_⟩
    have hall := takeWhile_all Char.isDigit l
    rwa [hx] at hall

theorem matchKind_spec {l k r : List Char} (h : matchKind l = some (k, r)) : KindWF k := by
  unfold matchKind at h
  split at h
  · simp only [Option.some.injEq, Prod.mk.injEq] at h
    exact Or.inl h.1.symm
  · split at h
    · simp only [Option.some.injEq, Prod.mk.injEq] at h
      exact Or.inr (Or.inl h.1.symm)
    · split at h
      · simp only [Option.some.injEq, Prod.mk.injEq] at h
        exact Or.inr (Or.inr h.1.symm)
      · exact absurd h (by simp)

theorem matchAfterPath_spec {l : List Char} {ap : AfterPath}
    (h : matchAfterPath l = some ap) :
    DigitsWF ap.lineDigits ∧ DigitsWF ap.colDigits ∧ KindWF ap.kind := by
  unfold matchAfterPath at h
  simp only [Option.bind_eq_some, Option.map_eq_some'] at h
  obtain ⟨r1, h1, ⟨lineD, rA⟩, hp1, r2, h2, ⟨colD, rB⟩, hp2, r3, h3, r4, h4,
    ⟨k, rC⟩, hpk, r5, h5, r6, h6, ⟨msg, chk, tl⟩, hmsg, hap⟩ := h
  subst hap
  exact ⟨takeDigits1_spec hp1, takeDigits1_spec hp2, matchKind_spec hpk⟩

theorem tryPathSplits_wf : ∀ (pr rest : List Char) (g : HeaderGroups) (n : Nat),
    tryPathSplits pr rest = some (g, n) →
    DigitsWF g.lineDigits ∧ DigitsWF g.colDigits ∧ KindWF g.kind
  | [], _, _, _, h => absurd h (by simp [tryPathSplits])
  | p :: ps, rest, g, n, h => by
    cases hap : matchAfterPath rest with
    | some ap =>
      simp only [tryPathSplits, hap, Option.some.injEq, Prod.mk.injEq] at h
      obtain ⟨hg, _⟩ := h
      subst hg
      exact matchAfterPath_spec hap
    | none =>
      simp only [tryPathSplits, hap] at h
      exact tryPathSplits_wf ps (p :: rest) g n h

theorem matchHeaderAt_wf {t : List Char} {g : HeaderGroups} {n : Nat}
    (h : matchHeaderAt t = some (g, n)) :
    DigitsWF g.lineDigits ∧ DigitsWF g.colDigits ∧ KindWF g.kind := by
  unfold matchHeaderAt at h
  exact tryPathSplits_wf _ _ _ _ h

theorem scanHeadersAux_wf : ∀ (fuel : Nat) (t : List Char) (pos : Nat) (ls : Bool)
    (h : HeaderMatch), h ∈ scanHeadersAux fuel t pos ls → GroupsWF h.groups := by
  intro fuel
  induction fuel with
  | zero => intro t pos ls h hm; simp [scanHeadersAux] at hm
  | succ k ih =>
    intro t pos ls h hm
    cases t with
    | nil => simp [scanHeadersAux] at hm
    | cons c rest =>
      simp only [scanHeadersAux] at hm
      by_cases hls : ls = true
      · simp only [if_pos hls] at hm
        cases hmh : matchHeaderAt (c :: rest) with
        | some gn =>
          obtain ⟨g, n⟩ := gn
          simp only [hmh] at hm
          rcases List.mem_cons.mp hm with heq | hmem
          · subst heq
            exact matchHeaderAt_wf hmh
          · exact ih _ _ _ h hmem
        | none =>
          simp only [hmh] at hm
          exact ih _ _ _ h hm
      · simp only [if_neg hls] at hm
        exact ih _ _ _ h hm

theorem scanHeaders_wf {t : List Char} {h : HeaderMatch}
    (hm : h ∈ scanHeaders t) : GroupsWF h.groups :=
  scanHeadersAux_wf _ _ _ _ _ hm

theorem pyInt_digits {d : List Char} (hd : DigitsWF d) :
    pyInt d = some ((digitsToNat d : Nat) : Int) := by
  obtain ⟨hne, hall⟩ := hd
  cases d with
  | nil => exact absurd rfl hne
  | cons c cs =>
    have hc : Char.isDigit c = true := by
      have := List.all_eq_true.mp hall c (List.mem_cons_self c cs)
      exact this
    have hcm : ¬ c = '-' := by
      intro he; rw [he] at hc; exact absurd hc (by decide)
    have hcp : ¬ c = '+' := by
      intro he; rw [he] at hc; exact absurd hc (by decide)
    simp [pyInt, hcm, hcp, digitsVal, hall]

theorem ClangIssue.addNote_type (i n : ClangIssue) : (i.addNote n).type = i.type := by
  cases i; rfl

theorem ClangIssue.addNote_line (i n : ClangIssue) : (i.addNote n).line = i.line := by
  cases i; rfl

theorem ClangIssue.addNote_char (i n : ClangIssue) : (i.addNote n).char = i.char := by
  cases i; rfl

theorem ClangIssue.addNote_check (i n : ClangIssue) : (i.addNote n).check = i.check := by
  cases i; rfl

theorem ClangIssue.addNote_notes (i n : ClangIssue) :
    (i.addNote n).notes = i.notes ++ [n] := by
  cases i; rfl

theorem ofHeader_spec {g : HeaderGroups} (wd b : List Char) (hg : GroupsWF g) :
    ofHeader wd g b = some (ClangIssue.mk (String.mk (stripWorkDir wd g.path))
      ((digitsToNat g.lineDigits : Nat) : Int) ((digitsToNat g.colDigits : Nat) : Int)
      (String.mk g.kind) (String.mk g.message) (g.check.map String.mk) (String.mk b) []) := by
  obtain ⟨h1, h2, _⟩ := hg
  simp [ofHeader, pyInt_digits h1, pyInt_digits h2]

theorem mkString_eq_lit {l : List Char} {s : String} :
    String.mk l = s ↔ l = s.data := by
  constructor
  · intro h; rw [← h]
  · intro h; rw [h]

theorem headerIssueRel_of_wf {h : HeaderMatch} {i : ClangIssue} (hg : GroupsWF h.groups)
    (wd b : List Char)
    (hi : i = ClangIssue.mk (String.mk (stripWorkDir wd h.groups.path))
      ((digitsToNat h.groups.lineDigits : Nat) : Int)
      ((digitsToNat h.groups.colDigits : Nat) : Int)
      (String.mk h.groups.kind) (String.mk h.groups.message)
      (h.groups.check.map String.mk) (String.mk b) []) :
    headerIssueRel h i := by
  subst hi
  obtain ⟨_, _, hk⟩ := hg
  refine ⟨rfl, rfl, rfl, by simp [ClangIssue.line], by simp [ClangIssue.char], ?_⟩
  rcases hk with hk | hk | hk <;> rw [ClangIssue.type, hk]
  · exact Or.inl rfl
  · exact Or.inr (Or.inl rfl)
  · exact Or.inr (Or.inr rfl)

theorem buildIssues_spec (wd t : List Char) : ∀ hs : List HeaderMatch,
    (∀ h ∈ hs, GroupsWF h.groups) →
    ∃ is, buildIssues wd t hs = some is ∧ List.Forall₂ headerIssueRel hs is := by
  intro hs
  induction hs with
  | nil => intro _; exact ⟨[], rfl, List.Forall₂.nil⟩
  | cons h rest ih =>
    intro hwf
    obtain ⟨is, hbi, hrel⟩ := ih (fun x hx => hwf x (List.mem_cons_of_mem _ hx))
    have hg := hwf h (List.mem_cons_self _ _)
    refine ⟨_, ?_, List.Forall₂.cons (headerIssueRel_of_wf hg wd (bodySlice t h rest) rfl) hrel⟩
    simp [buildIssues, ofHeader_spec wd (bodySlice t h rest) hg, hbi]

theorem isProblem_transport {h : HeaderMatch} {i : ClangIssue} (hr : headerIssueRel h i) :
    i.isProblem = headerIsProblem h := by
  obtain ⟨ht, _, _⟩ := hr
  have hiff : (i.type = "warning" ∨ i.type = "error")
      ↔ (h.groups.kind = "warning".data ∨ h.groups.kind = "error".data) := by
    rw [ht]; simp [mkString_eq_lit]
  simp [ClangIssue.isProblem, headerIsProblem, decide_eq_decide, hiff]

theorem check_transport {h : HeaderMatch} {i : ClangIssue} (hr : headerIssueRel h i) :
    (decide (i.check = some "clang-diagnostic-error") : Bool)
      = decide (h.groups.check = some ("clang-diagnostic-error".data)) := by
  obtain ⟨_, hc, _⟩ := hr
  have hiff : (i.check = some "clang-diagnostic-error")
      ↔ (h.groups.check = some ("clang-diagnostic-error".data)) := by
    rw [hc]; cases hgc : h.groups.check <;> simp [mkString_eq_lit]
  simp [decide_eq_decide, hiff]

theorem issueIn_of_rel {h : HeaderMatch} {i : ClangIssue} (hr : headerIssueRel h i) :
    IssueIn i :=
  ⟨hr.2.2.2.2.2, hr.2.2.2.1, hr.2.2.2.2.1, hr.2.2.1⟩

theorem forall₂_mem_right {α β : Type} {R : α → β → Prop} :
    ∀ {l₁ : List α} {l₂ : List β}, List.Forall₂ R l₁ l₂ → ∀ b ∈ l₂, ∃ a ∈ l₁, R a b := by
  intro l₁ l₂ hf
  induction hf with
  | nil => intro b hb; simp at hb
  | cons hr _ ih =>
    intro b hb
    rcases List.mem_cons.mp hb with heq | hmem
    · subst heq; exact ⟨_, by simp, hr⟩
    · obtain ⟨a, ha, har⟩ := ih b hmem
      exact ⟨a, List.mem_cons_of_mem _ ha, har⟩

theorem countP_eq_of_forall₂ {α β : Type} {R : α → β → Prop} (f : β → Bool) (g : α → Bool) :
    ∀ {l₁ : List α} {l₂ : List β}, List.Forall₂ R l₁ l₂ → (∀ a b, R a b → f b = g a) →
    l₂.countP f = l₁.countP g := by
  intro l₁ l₂ hf he
  induction hf with
  | nil => rfl
  | cons hr _ ih => simp [List.countP_cons, he _ _ hr, ih]

theorem countP_and_le {α : Type} (p q : α → Bool) :
    ∀ l : List α, (l.countP fun a => p a && q a) ≤ l.countP p
  | [] => le_refl _
  | a :: l => by
    have := countP_and_le p q l
    simp only [List.countP_cons]
    cases hp : p a <;> cases hq : q a <;> (simp [hp, hq]; omega)

theorem countP_and_not {α : Type} (p q : α → Bool) :
    ∀ l : List α,
      (l.countP fun a => p a && !q a) = l.countP p - l.countP (fun a => p a && q a)
  | [] => rfl
  | a :: l => by
    have hle := countP_and_le p q l
    have hih := countP_and_not p q l
    simp only [List.countP_cons]
    cases hp : p a <;> cases hq : q a <;> simp [hp, hq, hih] <;> omega

theorem attachNote_length : ∀ (acc : List ClangIssue) (n : ClangIssue),
    (attachNote acc n).length = acc.length
  | [], _ => rfl
  | [_], _ => rfl
  | i :: j :: rest, n => by simp [attachNote, attachNote_length (j :: rest) n]

theorem attachNote_append : ∀ (pre : List ClangIssue) (l n : ClangIssue),
    attachNote (pre ++ [l]) n = pre ++ [l.addNote n]
  | [], l, n => rfl
  | p :: ps, l, n => by
    cases ps with
    | nil => rfl
    | cons q qs =>
      have hih := attachNote_append (q :: qs) l n
      simp only [List.cons_append] at hih
      simp [attachNote, hih]

theorem foldl_attachStep_length : ∀ (l : List ClangIssue) (acc : List ClangIssue),
    (List.foldl attachStep acc l).length
      = acc.length
        + l.countP (fun i => i.isProblem && !decide (i.check = some "clang-diagnostic-error"))
  | [], acc => by simp
  | i :: l, acc => by
    rw [List.foldl_cons, foldl_attachStep_length l _]
    simp only [List.countP_cons]
    by_cases hp : i.isProblem
    · by_cases hc : i.check = some "clang-diagnostic-error"
      · simp [attachStep, hp, hc]
      · simp [attachStep, hp, hc]; omega
    · simp [attachStep, hp, attachNote_length]

theorem addNote_isProblem (i n : ClangIssue) : (i.addNote n).isProblem = i.isProblem := by
  simp [ClangIssue.isProblem, ClangIssue.addNote_type]

theorem attachNote_inv {n : ClangIssue} (hn : n.type = "note" ∧ 0 ≤ n.line ∧ 0 ≤ n.char) :
    ∀ (acc : List ClangIssue), (∀ i ∈ acc, IssueOut i) → ∀ j ∈ attachNote acc n, IssueOut j
  | [], _, j, hj => absurd hj (by simp [attachNote])
  | [i], hacc, j, hj => by
    simp only [attachNote, List.mem_singleton] at hj
    subst hj
    obtain ⟨hp, hl, hc, hns⟩ := hacc i (by simp)
    refine ⟨?_, ?_, ?_, ?_⟩
    · rw [addNote_isProblem]; exact hp
    · rw [ClangIssue.addNote_line]; exact hl
    · rw [ClangIssue.addNote_char]; exact hc
    · rw [ClangIssue.addNote_notes]
      intro m hm
      rcases List.mem_append.mp hm with hm | hm
      · exact hns m hm
      · rw [List.mem_singleton] at hm; subst hm; exact hn
  | i :: j' :: rest, hacc, j, hj => by
    simp only [attachNote] at hj
    rcases List.mem_cons.mp hj with heq | hmem
    · subst heq; exact hacc j (by simp)
    · exact attachNote_inv hn (j' :: rest) (fun x hx => hacc x (List.mem_cons_of_mem _ hx)) j hmem

theorem note_type_of_not_problem {i : ClangIssue} (hin : IssueIn i)
    (hp : ¬ i.isProblem = true) : i.type = "note" := by
  obtain ⟨hk, _, _, _⟩ := hin
  rcases hk with hk | hk | hk
  · exact absurd (by simp [ClangIssue.isProblem, hk]) hp
  · exact absurd (by simp [ClangIssue.isProblem, hk]) hp
  · exact hk

theorem foldl_attachStep_inv : ∀ (l acc : List ClangIssue),
    (∀ i ∈ acc, IssueOut i) → (∀ i ∈ l, IssueIn i) →
    ∀ j ∈ List.foldl attachStep acc l, IssueOut j
  | [], _, hacc, _, j, hj => hacc j hj
  | i :: l, acc, hacc, hl, j, hj => by
    rw [List.foldl_cons] at hj
    have hin := hl i (by simp)
    have hrest : ∀ x ∈ l, IssueIn x := fun x hx => hl x (List.mem_cons_of_mem _ hx)
    have hstep : ∀ x ∈ attachStep acc i, IssueOut x := by
      by_cases hp : i.isProblem
      · by_cases hc : i.check = some "clang-diagnostic-error"
        · intro x hx
          simp only [attachStep, hp, if_pos hc, if_true] at hx
          exact hacc x hx
        · intro x hx
          simp only [attachStep, hp, if_neg hc, if_true] at hx
          rcases List.mem_append.mp hx with hx | hx
          · exact hacc x hx
          · rw [List.mem_singleton] at hx
            subst hx
            refine ⟨hp, hin.2.1, hin.2.2.1, ?_⟩
            rw [hin.2.2.2]
            intro m hm
            simp at hm
      · intro x hx
        have hnote := note_type_of_not_problem hin hp
        simp only [attachStep, hp, if_false, Bool.false_eq_true] at hx
        exact attachNote_inv ⟨hnote, hin.2.1, hin.2.2.1⟩ acc hacc x hx
    exact foldl_attachStep_inv l (attachStep acc i) hstep hrest j hj

theorem parse_pipeline (wd s : String) :
    ∃ is, List.Forall₂ headerIssueRel (scanHeaders (pyTruncate s.data)) is ∧
      parseIssuesE wd s = some (List.foldl attachStep [] is) ∧
      parseIssues wd s = List.foldl attachStep [] is := by
  obtain ⟨is, hbi, hrel⟩ := buildIssues_spec wd.data (pyTruncate s.data)
    (scanHeaders (pyTruncate s.data)) (fun _ hm => scanHeaders_wf hm)
  refine ⟨is, hrel, ?_, ?_⟩
  · simp [parseIssuesE, parseAll, hbi]
  · simp [parseIssues, parseIssuesE, parseAll, hbi]

theorem issues_in_of_rel {hs : List HeaderMatch} {is : List ClangIssue}
    (hrel : List.Forall₂ headerIssueRel hs is) : ∀ x ∈ is, IssueIn x := by
  intro x hx
  obtain ⟨h, _, hr⟩ := forall₂_mem_right hrel x hx
  exact issueIn_of_rel hr

/-- C9: the parser is total: for every work directory and every input text
(including malformed header lines and arbitrary unexpected text),
`parse_issues` — with the fallible `int()` conversions modelled by
`Option` — returns a result list and never fails; text that does not
match the header grammar is only ever absorbed into body text. -/
theorem parse_issues_total (wd s : String) :
    parseIssuesE wd s = some (parseIssues wd s) := by
  obtain ⟨is, _, he, hp⟩ := parse_pipeline wd s
  rw [he, hp]

/-- C1: for every input text, the parser returns exactly as many top-level
Diagnostics as there are matched headers of kind `warning` or `error`,
minus those among them whose check id is the sentinel
`clang-diagnostic-error`; in particular, when the (truncated) text has no
well-formed header the result is empty. -/
theorem parse_issues_count (wd s : String) :
    (parseIssues wd s).length
      = (scanHeaders (pyTruncate s.data)).countP headerIsProblem
        - (scanHeaders (pyTruncate s.data)).countP headerIsDiagErr
    ∧ (scanHeaders (pyTruncate s.data) = [] → parseIssues wd s = []) := by
  obtain ⟨is, hrel, _, hp⟩ := parse_pipeline wd s
  constructor
  · have h1 : (parseIssues wd s).length
        = is.countP (fun i => i.isProblem && !decide (i.check = some "clang-diagnostic-error")) := by
      rw [hp, foldl_attachStep_length]
      simp
    have h2 : is.countP (fun i => i.isProblem && !decide (i.check = some "clang-diagnostic-error"))
        = (scanHeaders (pyTruncate s.data)).countP
            (fun h => headerIsProblem h
              && !decide (h.groups.check = some ("clang-diagnostic-error".data))) :=
      countP_eq_of_forall₂ _ _ hrel
        (fun a b hr => by rw [isProblem_transport hr, check_transport hr])
    refine (h1.trans h2).trans ?_
    exact countP_and_not headerIsProblem
      (fun h => decide (h.groups.check = some ("clang-diagnostic-error".data)))
      (scanHeaders (pyTruncate s.data))
  · intro h0
    rw [hp]
    rw [h0] at hrel
    cases hrel
    rfl

/-- Witness for C1: the instance at a concrete header-free text. -/
theorem parse_issues_count_witness :
    scanHeaders (pyTruncate ("hello".data)) = [] ∧ parseIssues "" "hello" = [] :=
  ⟨by decide, (parse_issues_count "" "hello").2 (by decide)⟩

/-- C6: every top-level record returned by the parser has kind `warning`
or `error`, every record in a Diagnostic's note list has kind `note`, and
a note-kind record reaching the classification fold before any kept
Diagnostic is dropped without error and appears nowhere in the result. -/
theorem parse_kinds_invariant :
    (∀ wd s : String,
      ((parseIssues wd s).all fun i =>
        decide (i.type = "warning" ∨ i.type = "error")
          && i.notes.all (fun n => decide (n.type = "note"))) = true)
    ∧ (∀ (n : ClangIssue) (rest : List ClangIssue), n.isProblem = false →
        List.foldl attachStep [] (n :: rest) = List.foldl attachStep [] rest) := by
  constructor
  · intro wd s
    obtain ⟨is, hrel, _, hp⟩ := parse_pipeline wd s
    rw [hp, List.all_eq_true]
    intro i hi
    have hout : IssueOut i :=
      foldl_attachStep_inv is [] (by simp) (issues_in_of_rel hrel) i hi
    obtain ⟨hp1, _, _, hns⟩ := hout
    rw [Bool.and_eq_true]
    refine ⟨hp1, ?_⟩
    rw [List.all_eq_true]
    intro n hn
    exact decide_eq_true (hns n hn).1
  · intro n rest hn
    rw [List.foldl_cons]
    congr 1
    simp [attachStep, hn, attachNote]

/-- Witness for C6: a note arriving on the empty accumulator is dropped. -/
theorem parse_kinds_invariant_witness :
    List.foldl attachStep [] [sampleNote, sampleProblem]
      = List.foldl attachStep [] [sampleProblem] :=
  parse_kinds_invariant.2 sampleNote [sampleProblem] (by decide)

/-- C3: a problem record whose check id is the `clang-diagnostic-error`
sentinel is dropped and is transparent to the rest of the classification
fold, so every note that follows it attaches to the last kept Diagnostic
appended before it, or is discarded when no Diagnostic has been kept
yet. -/
theorem notes_attach_to_last_kept :
    (∀ (acc : List ClangIssue) (e : ClangIssue) (rest : List ClangIssue),
        e.isProblem = true → e.check = some "clang-diagnostic-error" →
        List.foldl attachStep acc (e :: rest) = List.foldl attachStep acc rest)
    ∧ (∀ (pre : List ClangIssue) (lastKept n : ClangIssue), n.isProblem = false →
        attachStep (pre ++ [lastKept]) n = pre ++ [lastKept.addNote n])
    ∧ (∀ n : ClangIssue, n.isProblem = false → attachStep [] n = []) := by
  refine ⟨?_, ?_, ?_⟩
  · intro acc e rest he hc
    rw [List.foldl_cons]
    congr 1
    simp [attachStep, he, hc]
  · intro pre lastKept n hn
    simp [attachStep, hn, attachNote_append]
  · intro n hn
    simp [attachStep, hn, attachNote]

/-- Witness for C3: the three behaviours at concrete issues. -/
theorem notes_attach_to_last_kept_witness :
    List.foldl attachStep [sampleProblem] [sampleDiagErr, sampleNote]
        = List.foldl attachStep [sampleProblem] [sampleNote]
    ∧ attachStep ([] ++ [sampleProblem]) sampleNote = [] ++ [sampleProblem.addNote sampleNote]
    ∧ attachStep [] sampleNote = [] :=
  ⟨notes_attach_to_last_kept.1 [sampleProblem] sampleDiagErr [sampleNote] (by decide) (by decide),
   notes_attach_to_last_kept.2.1 [] sampleProblem sampleNote (by decide),
   notes_attach_to_last_kept.2.2 sampleNote (by decide)⟩

/-- C8 (amended): every Diagnostic and Note produced by the parser has a
nonnegative line and column — the value of a nonempty digit capture; the
grammar also accepts `0`, so 1-based positivity is not guaranteed. -/
theorem parse_positions_nonneg (wd s : String) :
    ((parseIssues wd s).all fun i =>
      decide (0 ≤ i.line) && decide (0 ≤ i.char)
        && i.notes.all (fun n => decide (0 ≤ n.line) && decide (0 ≤ n.char))) = true := by
  obtain ⟨is, hrel, _, hp⟩ := parse_pipeline wd s
  rw [hp, List.all_eq_true]
  intro i hi
  have hout : IssueOut i :=
    foldl_attachStep_inv is [] (by simp) (issues_in_of_rel hrel) i hi
  obtain ⟨_, hl, hc, hns⟩ := hout
  simp only [Bool.and_eq_true]
  refine ⟨⟨decide_eq_true hl, decide_eq_true hc⟩, ?_⟩
  rw [List.all_eq_true]
  intro n hn
  simp only [Bool.and_eq_true]
  exact ⟨decide_eq_true (hns n hn).2.1, decide_eq_true (hns n hn).2.2⟩

/-- C8 counterexample: on `a.cpp:0:0: warning: msg\n` the parser returns
a Diagnostic with line 0 and column 0, refuting the 1-based claim as
stated. -/
theorem parse_positions_zero_counterexample :
    ¬ (∀ i ∈ parseIssues "" "a.cpp:0:0: warning: msg\n",
        (1 ≤ i.line ∧ 1 ≤ i.char) ∧ ∀ n ∈ i.notes, 1 ≤ n.line ∧ 1 ≤ n.char) := by
  decide

/-- C2 (code evaluated at the spec's own example): on
`a.cpp:1:1: warning: msg1\nBODY1\na.cpp:2:1: note: msg2\nBODY2\n` the
parser returns one Diagnostic whose message swallowed everything up to
the last newline — the message class contains `\s`, hence newlines, and
the note header line — with empty body and no Note, instead of a
Diagnostic with body `BODY1` and one Note with body `BODY2`. -/
theorem parse_example_swallows_note :
    (parseIssues "" "a.cpp:1:1: warning: msg1\nBODY1\na.cpp:2:1: note: msg2\nBODY2\n").map
        (fun i => (i.path, i.type)) = [("a.cpp", "warning")]
    ∧ (parseIssues "" "a.cpp:1:1: warning: msg1\nBODY1\na.cpp:2:1: note: msg2\nBODY2\n").map
        (fun i => (i.line, i.char)) = [(1, 1)]
    ∧ (parseIssues "" "a.cpp:1:1: warning: msg1\nBODY1\na.cpp:2:1: note: msg2\nBODY2\n").map
        (fun i => i.message) = ["msg1\nBODY1\na.cpp:2:1: note: msg2\nBODY2"]
    ∧ (parseIssues "" "a.cpp:1:1: warning: msg1\nBODY1\na.cpp:2:1: note: msg2\nBODY2\n").map
        (fun i => (i.body, i.notes.length)) = [("", 0)] := by
  refine ⟨by decide, by decide, by decide, by decide⟩

/-- C4 (code evaluated at the failing input): when the `Enabled checks:`
marker is the very first line, `clang_output[:end.start()-1]` becomes
`clang_output[:-1]`, which removes only the final character instead of
truncating at the marker, and the header line after the marker is parsed
into a Diagnostic. -/
theorem marker_on_first_line_not_truncated :
    (parseIssues "" "Enabled checks:\na.cpp:1:1: warning: msg\nX\n").map
        (fun i => (i.path, i.type)) = [("a.cpp", "warning")]
    ∧ (parseIssues "" "Enabled checks:\na.cpp:1:1: warning: msg\nX\n").map
        (fun i => (i.line, i.char)) = [(1, 1)]
    ∧ (parseIssues "" "Enabled checks:\na.cpp:1:1: warning: msg\nX\n").map
        (fun i => (i.message, i.body)) = [("msg", "X")] := by
  refine ⟨by decide, by decide, by decide⟩

theorem reMatchFragAt_literal : ∀ (f t : List Char),
    (∀ c ∈ f, isRegexMeta c = false) → reMatchFragAt f t = isPrefixOfB f t
  | [], _, _ => rfl
  | _ :: _, [], _ => rfl
  | p :: ps, c :: cs, hf => by
    have hp : isRegexMeta p = false := hf p (by simp)
    have hpd : ¬ p = '.' := by
      intro he; rw [he] at hp; exact absurd hp (by decide)
    simp [reMatchFragAt, isPrefixOfB, hpd,
      reMatchFragAt_literal ps cs (fun x hx => hf x (List.mem_cons_of_mem _ hx))]

theorem any_ext {α : Type} (f g : α → Bool) :
    ∀ l : List α, (∀ a ∈ l, f a = g a) → l.any f = l.any g
  | [], _ => rfl
  | a :: l, h => by
    simp [List.any_cons, h a (by simp), any_ext f g l (fun x hx => h x (List.mem_cons_of_mem _ hx))]

/-- C7 (amended): for a nonempty fragment set whose fragments contain no
regex metacharacters, a database path is dispatched iff it contains at
least one fragment as a substring; fragments are inserted into the filter
pattern unescaped, so in general dispatch is regex search, not substring
containment (see the counterexample with fragment `a.c`). -/
theorem file_filter_literal_fragments (files : List String) (name : String)
    (h1 : files ≠ [])
    (h2 : ∀ f ∈ files, (f.data.all fun c => !isRegexMeta c) = true) :
    (fileNameMatches files name = true ↔ ∃ f ∈ files, isSubstringOf f name = true) := by
  have hie : files.isEmpty = false := by
    cases files with
    | nil => exact absurd rfl h1
    | cons a l => rfl
  have hpt : ∀ f ∈ files, reSearchFrag f.data name.data = isSubstringOf f name := by
    intro f hf
    unfold reSearchFrag isSubstringOf
    apply any_ext
    intro t _
    apply reMatchFragAt_literal
    intro c hc
    have hx := List.all_eq_true.mp (h2 f hf) c hc
    simpa using hx
  unfold fileNameMatches
  rw [hie]
  simp only [Bool.false_or]
  rw [any_ext _ (fun f => isSubstringOf f name) files hpt]
  exact List.any_eq_true

/-- Witness for C7: the instance at one literal fragment. -/
theorem file_filter_literal_fragments_witness :
    fileNameMatches ["ab"] "xaby" = true ↔ ∃ f ∈ ["ab"], isSubstringOf f "xaby" = true :=
  file_filter_literal_fragments ["ab"] "xaby" (by decide) (by decide)

/-- C7 counterexample: the fragment `a.c` is inserted unescaped into the
filter regex, where `.` matches any character: path `axc` is dispatched
although it does not contain `a.c` as a substring. -/
theorem file_filter_not_substring_counterexample :
    fileNameMatches ["a.c"] "axc" = true ∧ isSubstringOf "a.c" "axc" = false := by
  decide

/-- C10: with an empty fragment set the constructed filter pattern is
`()`, which matches every string, so every file of the compile database
is dispatched. -/
theorem empty_fragment_filter_matches_all (db : List String) :
    (∀ name : String, fileNameMatches [] name = true) ∧ filteredFiles db [] = db := by
  refine ⟨fun name => rfl, ?_⟩
  unfold filteredFiles
  induction db with
  | nil => rfl
  | cons a l ih => simp [List.filter_cons, fileNameMatches, ih]

end Clang
